import Mathlib

/-!
Shallow embedding of the route-time correspondence engine of
`src/syncview/dev/svscript.js`.

Modelling conventions:
* JavaScript numbers are modelled as rationals (`ℚ`); the source performs
  only field arithmetic, comparisons, `Math.max`/`Math.min` clamps and one
  `Math.sqrt` (see `pointToSegmentDistance` below).
* A JavaScript array access that can hit `undefined` (and so make the
  function throw or return `undefined`) is modelled with `Option`.
* The external Leaflet `map.distance` function is a parameter
  `g : Q2 → Q2 → ℚ`; everything defined in the repository itself is
  transcribed from the source.
* Coordinates are `(lat, lon)` pairs, as in the internal `routeCoords`
  representation of the source.
-/

abbrev Q2 := ℚ × ℚ

/-- One element of the global `timePoints` array: `{time, lat, lon, dist}`
as built in `loadData`. -/
structure Anchor where
  time : ℚ
  lat : ℚ
  lon : ℚ
  dist : ℚ
deriving DecidableEq

/-- One element of the global `landmarks` array: `{time, lat, lon, description}`. -/
structure Landmark where
  time : ℚ
  lat : ℚ
  lon : ℚ
  description : String
deriving DecidableEq

/-- One element of `data.linkedPoints`: `{time, position: [lat, lon]}`. -/
structure RawPoint where
  time : ℚ
  pos : Q2
deriving DecidableEq

/-- The part of the loaded JSON project that the engine consumes. -/
structure LoadedData where
  /-- `data.geojson.features[0].geometry.coordinates`, `[lon, lat]` pairs. -/
  coordsLonLat : List Q2
  linkedPoints : List RawPoint
  landmarks : List Landmark
  /-- `data.startPosition` as an optional `(lat, lon)` pair. -/
  startPosition : Option Q2
deriving DecidableEq

/-- The module-level mutable state of `svscript.js` after `loadData`. -/
structure SessionState where
  routeCoords : List Q2
  cumulativeDist : List ℚ
  timePoints : List Anchor
  landmarks : List Landmark
  initialPos : Option Q2
  initialDist : ℚ
deriving DecidableEq

/-- Last element of a rational list, `0` for the empty list.  Used to model
`cumulativeDist.at(-1)` style accesses and the total route length. -/
def lastQ : List ℚ → ℚ
  | [] => 0
  | [c] => c
  | _ :: c :: rest => lastQ (c :: rest)

/-- `lastOf a rest` is the last element of the nonempty list `a :: rest`,
modelling `timePoints.at(-1)` on a list known to be nonempty. -/
def lastOf (a : Anchor) : List Anchor → Anchor
  | [] => a
  | b :: rest => lastOf b rest

/-- The `cumulativeDist` computation of `loadData`: starts at `[0]` and for
each consecutive pair of route points pushes the running total plus the
(Leaflet) distance `g` between them.  `buildAux g p rest acc` produces the
entries for the suffix `p :: rest` of the route with running total `acc`. -/
def buildAux (g : Q2 → Q2 → ℚ) : Q2 → List Q2 → ℚ → List ℚ
  | _, [], acc => [acc]
  | p, q :: rest, acc => acc :: buildAux g q rest (acc + g p q)

/-- `cumulativeDist = [0]; for i ≥ 1: push(cumulativeDist[i-1] + g(route[i-1], route[i]))`.
For the empty route the source also leaves `[0]`. -/
def buildCumulativeDistances (g : Q2 → Q2 → ℚ) (route : List Q2) : List ℚ :=
  match route with
  | [] => [0]
  | p :: rest => buildAux g p rest 0

/-- Result of `pointToSegmentDistance`.  The source returns
`{dist, frac}` where `dist = Math.sqrt((x-projX)^2 + (y-projY)^2) * 111320`;
we carry `dist2`, the square of that value, which is freely computable in
`ℚ` and induces exactly the same strict comparisons (the square root is
strictly monotone on nonnegative reals). -/
structure SegResult where
  dist2 : ℚ
  frac : ℚ
deriving DecidableEq

/-- Transcription of `pointToSegmentDistance(p, a, b)`: planar projection of
`p` onto the segment `a`-`b`, with the projection fraction clamped to
`[0, 1]` by `Math.max(0, Math.min(1, dot / lenSq))`.  (In `ℚ`, `x / 0 = 0`;
the source would produce `NaN` for a zero-length segment.) -/
def pointToSegmentDistance (p a b : Q2) : SegResult :=
  let x := p.2
  let y := p.1
  let x1 := a.2
  let y1 := a.1
  let x2 := b.2
  let y2 := b.1
  let A := x - x1
  let B := y - y1
  let C := x2 - x1
  let D := y2 - y1
  let dot := A * C + B * D
  let lenSq := C * C + D * D
  let frac := max 0 (min 1 (dot / lenSq))
  let projX := x1 + frac * C
  let projY := y1 + frac * D
  { dist2 := ((x - projX) ^ 2 + (y - projY) ^ 2) * 111320 ^ 2, frac := frac }

/-- Loop of `findNearestDistanceOnRoute`: walks the route and the cumulative
distance table in parallel (in the source both are indexed by the same `i`
and have equal length by construction in `loadData`), keeping the best
(smallest) segment distance seen so far.  `nearest = none` models the
initial `Infinity`. -/
def findNearestAux (p : Q2) : List Q2 → List ℚ → Option ℚ → ℚ → ℚ
  | a :: b :: rrest, c1 :: c2 :: crest, nearest, best =>
    let r := pointToSegmentDistance p a b
    match nearest with
    | none =>
      findNearestAux p (b :: rrest) (c2 :: crest) (some r.dist2)
        (c1 + r.frac * (c2 - c1))
    | some n =>
      if r.dist2 < n then
        findNearestAux p (b :: rrest) (c2 :: crest) (some r.dist2)
          (c1 + r.frac * (c2 - c1))
      else
        findNearestAux p (b :: rrest) (c2 :: crest) (some n) best
  | _, _, _, best => best

/-- `findNearestDistanceOnRoute(position)`: cumulative distance of the
projection of `position` onto the nearest route segment; `0` when the route
has fewer than two points (the loop body never runs and `bestCumDist`
stays `0`). -/
def findNearestDistanceOnRoute (routeCoords : List Q2) (cumulativeDist : List ℚ)
    (position : Q2) : ℚ :=
  findNearestAux position routeCoords cumulativeDist none 0

/-- Result of `findNearestPointOnRoute`: `{point, dist}`.  `point` is an
`Option` because the initial `bestPoint = routeCoords[0]` is `undefined`
for an empty route. -/
structure NearestPoint where
  point : Option Q2
  dist : ℚ
deriving DecidableEq

/-- Loop of `findNearestPointOnRoute`, tracking the projected point as well. -/
def findNearestPointAux (p : Q2) :
    List Q2 → List ℚ → Option ℚ → Option Q2 → ℚ → NearestPoint
  | a :: b :: rrest, c1 :: c2 :: crest, nearest, bestPoint, bestCum =>
    let r := pointToSegmentDistance p a b
    match nearest with
    | none =>
      findNearestPointAux p (b :: rrest) (c2 :: crest) (some r.dist2)
        (some (a.1 + r.frac * (b.1 - a.1), a.2 + r.frac * (b.2 - a.2)))
        (c1 + r.frac * (c2 - c1))
    | some n =>
      if r.dist2 < n then
        findNearestPointAux p (b :: rrest) (c2 :: crest) (some r.dist2)
          (some (a.1 + r.frac * (b.1 - a.1), a.2 + r.frac * (b.2 - a.2)))
          (c1 + r.frac * (c2 - c1))
      else
        findNearestPointAux p (b :: rrest) (c2 :: crest) (some n) bestPoint bestCum
  | _, _, _, bestPoint, bestCum => { point := bestPoint, dist := bestCum }

/-- `findNearestPointOnRoute(position)` with initial
`bestPoint = routeCoords[0]`, `bestCumDist = 0`. -/
def findNearestPointOnRoute (routeCoords : List Q2) (cumulativeDist : List ℚ)
    (position : Q2) : NearestPoint :=
  findNearestPointAux position routeCoords cumulativeDist none routeCoords.head? 0

/-- Result of `getPositionAtDistance`.  `undef` models the `undefined` the
source returns for an empty route.  `nonFinite` models the outcome of the
source's division by a zero `segDist`: there
`segFrac = (targetDist - cumulativeDist[i-1]) / 0` is `NaN` (numerator `0`)
or `±Infinity` (numerator nonzero), and in every one of those cases both
coordinates of the returned pair are non-finite doubles, never a valid
route position.  `pos` is an ordinary finite coordinate pair. -/
inductive PosResult
  | undef
  | nonFinite
  | pos (p : Q2)
deriving DecidableEq

/-- Wraps an optional route point (`routeCoords.at(-1)`-style access) as a
`PosResult`. -/
def posOf : Option Q2 → PosResult
  | some p => PosResult.pos p
  | none => PosResult.undef

/-- Loop of `getPositionAtDistance`: the source advances `i` while
`cumulativeDist[i] < targetDist`, returns `routeCoords.at(-1)` when `i`
runs off the table, and otherwise interpolates within segment
`(routeCoords[i-1], routeCoords[i])`.  Transcribed as a parallel walk over
the route and the table (the two arrays have equal length by construction).
When the selected segment has `segDist = 0`, the source's `segFrac`
division yields `NaN` or `±Infinity` and the resulting pair is non-finite:
that error path is kept as `PosResult.nonFinite` rather than silenced by
the rational convention `x / 0 = 0`. -/
def posLoop (targetDist : ℚ) : List Q2 → List ℚ → PosResult
  | a :: b :: rrest, c1 :: c2 :: crest =>
    if c2 < targetDist then posLoop targetDist (b :: rrest) (c2 :: crest)
    else
      let segDist := c2 - c1
      if segDist = 0 then PosResult.nonFinite
      else
        let segFrac := (targetDist - c1) / segDist
        PosResult.pos (a.1 + segFrac * (b.1 - a.1), a.2 + segFrac * (b.2 - a.2))
  | r, _ => posOf r.getLast?

/-- `getPositionAtDistance(targetDist)`.  For a route with fewer than two
points the source returns `routeCoords[0]` (which is `undefined` for an
empty route). -/
def getPositionAtDistance (routeCoords : List Q2) (cumulativeDist : List ℚ)
    (targetDist : ℚ) : PosResult :=
  match routeCoords with
  | [] => PosResult.undef
  | [p] => PosResult.pos p
  | a :: b :: rest => posLoop targetDist (a :: b :: rest) cumulativeDist

/-- Loop of `distanceToTime`: first pair `(prev, next)` with
`prev.dist ≤ d ≤ next.dist` wins and the time is linearly interpolated by
the distance fraction. -/
def dtLoop (d : ℚ) : List Anchor → Option ℚ
  | prev :: next :: rest =>
    if prev.dist ≤ d ∧ d ≤ next.dist then
      some (prev.time + (d - prev.dist) / (next.dist - prev.dist) * (next.time - prev.time))
    else dtLoop d (next :: rest)
  | _ => none

/-- `distanceToTime(d)`: returns `0` for fewer than two anchors, otherwise
runs the bracketing loop and finally falls back to the clamping returns of
the source (`d < first.dist`, `d > last.dist`, else `0`). -/
def distanceToTime (timePoints : List Anchor) (d : ℚ) : ℚ :=
  match timePoints with
  | [] => 0
  | [_] => 0
  | first :: next :: rest =>
    match dtLoop d (first :: next :: rest) with
    | some v => v
    | none =>
      let lastA := lastOf first (next :: rest)
      if d < first.dist then first.time
      else if lastA.dist < d then lastA.time
      else 0

/-- Loop of `interpolateDistanceForTime`: first pair `(prev, next)` with
`prev.time ≤ t ≤ next.time` wins and the distance is linearly interpolated
by the time fraction. -/
def interpLoop (t : ℚ) : List Anchor → Option ℚ
  | prev :: next :: rest =>
    if prev.time ≤ t ∧ t ≤ next.time then
      some (prev.dist + (t - prev.time) / (next.time - prev.time) * (next.dist - prev.dist))
    else interpLoop t (next :: rest)
  | _ => none

/-- `interpolateDistanceForTime(t)`.  The source reads `timePoints[0].time`
and `timePoints.at(-1).time` *before* its `length < 2` guard, so on an
empty anchor list it throws (`none` here); the checks are kept in source
order, including the unreachable trailing clamps and `return 0`. -/
def interpolateDistanceForTime (timePoints : List Anchor) (t : ℚ) : Option ℚ :=
  match timePoints with
  | [] => none
  | first :: rest =>
    let lastA := lastOf first rest
    if t ≤ first.time then some first.dist
    else if lastA.time ≤ t then some lastA.dist
    else
      match rest with
      | [] => some 0
      | next :: rest2 =>
        match interpLoop t (first :: next :: rest2) with
        | some v => some v
        | none =>
          if t < first.time then some first.dist
          else if lastA.time < t then some lastA.dist
          else some 0

/-- Ordering relation used to model `timePoints.sort((a, b) => a.time - b.time)`. -/
def timeLE (x y : Anchor) : Prop := x.time ≤ y.time

instance : DecidableRel timeLE := fun x y => inferInstanceAs (Decidable (x.time ≤ y.time))

instance : IsTotal Anchor timeLE := ⟨fun x y => le_total x.time y.time⟩

instance : IsTrans Anchor timeLE := ⟨fun _ _ _ h1 h2 => le_trans h1 h2⟩

/-- Strict version of `timeLE`, used for the amended round-trip law. -/
def timeLT (x y : Anchor) : Prop := x.time < y.time

instance : DecidableRel timeLT := fun x y => inferInstanceAs (Decidable (x.time < y.time))

/-- Strictly increasing distances, as in the round-trip claim. -/
def distLT (x y : Anchor) : Prop := x.dist < y.dist

instance : DecidableRel distLT := fun x y => inferInstanceAs (Decidable (x.dist < y.dist))

/-- `loadData(data)`: builds the route (swapping `[lon, lat]` to
`[lat, lon]`), the cumulative distance table, the sorted anchor list with
the FIX A override of `timePoints[0]` from `landmarks[0]`, and the initial
position/distance with `startPosition` taking precedence.  `g` is the
external Leaflet `map.distance`. -/
def loadData (g : Q2 → Q2 → ℚ) (data : LoadedData) : SessionState :=
  let routeCoords := data.coordsLonLat.map (fun c => (c.2, c.1))
  let cumulativeDist := buildCumulativeDistances g routeCoords
  let sortedTP := List.insertionSort timeLE
    (data.linkedPoints.map (fun p =>
      { time := p.time, lat := p.pos.1, lon := p.pos.2,
        dist := findNearestDistanceOnRoute routeCoords cumulativeDist p.pos : Anchor }))
  let timePoints :=
    match data.landmarks, sortedTP with
    | lm0 :: _, tp0 :: tpRest =>
      let nearest := findNearestPointOnRoute routeCoords cumulativeDist (lm0.lat, lm0.lon)
      { tp0 with dist := nearest.dist, time := lm0.time } :: tpRest
    | _, _ => sortedTP
  let startPair : Option Q2 × ℚ :=
    match data.startPosition with
    | some sp => (some sp, findNearestDistanceOnRoute routeCoords cumulativeDist sp)
    | none =>
      match data.landmarks with
      | lm0 :: _ =>
        (some (lm0.lat, lm0.lon),
         findNearestDistanceOnRoute routeCoords cumulativeDist (lm0.lat, lm0.lon))
      | [] =>
        match timePoints with
        | tp0 :: _ => (some (tp0.lat, tp0.lon), tp0.dist)
        | [] => (routeCoords.head?, 0)
  { routeCoords := routeCoords
    cumulativeDist := cumulativeDist
    timePoints := timePoints
    landmarks := data.landmarks
    initialPos := startPair.1
    initialDist := startPair.2 }

/-- The start-point block of `setupVisualization`: when landmarks exist the
marker is forced to `landmarks[0]`'s raw position and `initialDist` is
recomputed from its projection; otherwise the marker starts at
`routeCoords[0]` with `initialDist = 0`.  Returns `(startPoint, initialDist)`. -/
def setupStartPoint (st : SessionState) : Option Q2 × ℚ :=
  match st.landmarks with
  | lm :: _ =>
    (some (lm.lat, lm.lon),
     (findNearestPointOnRoute st.routeCoords st.cumulativeDist (lm.lat, lm.lon)).dist)
  | [] => (st.routeCoords.head?, 0)

/-- The distance selection of one `syncMarker` frame: skipped (`none`) when
the route is empty (the source also requires `player` and `marker`, both
always set by the time the loop runs); the landmark hold rule applies when
landmarks exist and `t < landmarks[0].time` (the source's
`typeof landmarks[0].time === 'number'` always holds in this model);
otherwise ordinary interpolation. -/
def syncMarkerDist (st : SessionState) (t : ℚ) : Option ℚ :=
  match st.routeCoords with
  | [] => none
  | _ :: _ =>
    match st.landmarks with
    | lm :: _ =>
      if t < lm.time then some st.initialDist
      else interpolateDistanceForTime st.timePoints t
    | [] => interpolateDistanceForTime st.timePoints t

/-- `updateLabel(currentTime)`: result is the description shown in the
label box (`none` = opacity 0).  The source subtracts a measured offset of
`0` and takes the first landmark with `|l.time - correctedTime| < 2`. -/
def updateLabel (landmarks : List Landmark) (currentTime : ℚ) : Option String :=
  match landmarks with
  | [] => none
  | _ :: _ =>
    let offset : ℚ := 0
    let correctedTime := currentTime - offset
    (landmarks.find? (fun l => decide (|l.time - correctedTime| < 2))).map
      (fun l => l.description)

/-! ### Concrete inputs used by counterexamples and witnesses -/

/-- A trivial stand-in for the external `map.distance`: constant `1`. -/
def gOne : Q2 → Q2 → ℚ := fun _ _ => 1

/-- A concrete stand-in for the external `map.distance` with the two
properties the position queries rely on: nonnegative, and zero exactly on
identical points (squared planar distance, computable over `ℚ`). -/
def gSq : Q2 → Q2 → ℚ := fun x y => (x.1 - y.1) ^ 2 + (x.2 - y.2) ^ 2

/-- Loaded project whose first landmark's time (10) exceeds the second
anchor's time (5): route `[[0,0],[0,1]]` (lon, lat), linked points at
times 0 and 5, one landmark at time 10. -/
def ce5data : LoadedData :=
  { coordsLonLat := [(0, 0), (0, 1)]
    linkedPoints := [⟨0, (0, 0)⟩, ⟨5, (1, 0)⟩]
    landmarks := [⟨10, 0, 0, "start"⟩]
    startPosition := none }

/-- Loaded project with both a `startPosition` (lat 5, lon 5) and a
landmark (lat 1, lon 0): route `[[0,0],[0,2]]` (lon, lat). -/
def ce6data : LoadedData :=
  { coordsLonLat := [(0, 0), (0, 2)]
    linkedPoints := []
    landmarks := [⟨0, 1, 0, "lm"⟩]
    startPosition := some (5, 5) }

/-- Session state used to witness the `syncMarker` landmark-hold rule. -/
def wstate4 : SessionState :=
  { routeCoords := [(0, 0), (2, 0)]
    cumulativeDist := [0, 1]
    timePoints := []
    landmarks := [⟨5, 1, 0, "lm"⟩]
    initialPos := none
    initialDist := 99 }

/-! ### Helper lemmas -/

theorem lastOf_cons (a b : Anchor) (rest : List Anchor) :
    lastOf a (b :: rest) = lastOf b rest := rfl

theorem lastOf_mem : ∀ (rest : List Anchor) (a : Anchor), lastOf a rest ∈ a :: rest
  | [], a => by simp [lastOf]
  | b :: rest, a => by
    rw [lastOf_cons]
    exact List.mem_cons_of_mem a (lastOf_mem rest b)

/-- In a strictly time-sorted list `a :: b :: rest` the head's time is
strictly below the last element's time. -/
theorem head_time_lt_lastOf (a b : Anchor) (rest : List Anchor)
    (h : List.Pairwise timeLT (a :: b :: rest)) :
    a.time < (lastOf b rest).time := by
  have h1 := (List.pairwise_cons.mp h).1
  exact h1 (lastOf b rest) (lastOf_mem rest b)

/-- Single unfolding step of `interpLoop` on a list with at least two
elements; the tail stays un-unfolded. -/
theorem interpLoop_step (a b : Anchor) (rest : List Anchor) (t : ℚ) :
    interpLoop t (a :: b :: rest)
      = if a.time ≤ t ∧ t ≤ b.time
        then some (a.dist + (t - a.time) / (b.time - a.time) * (b.dist - a.dist))
        else interpLoop t (b :: rest) := by
  simp only [interpLoop]

/-- Single unfolding step of `dtLoop` on a list with at least two elements. -/
theorem dtLoop_step (a b : Anchor) (rest : List Anchor) (d : ℚ) :
    dtLoop d (a :: b :: rest)
      = if a.dist ≤ d ∧ d ≤ b.dist
        then some (a.time + (d - a.dist) / (b.dist - a.dist) * (b.time - a.time))
        else dtLoop d (b :: rest) := by
  simp only [dtLoop]

/-- The interpolation loop finds a bracketing pair whenever
`a.time ≤ t ≤ (last element).time`. -/
theorem interpLoop_isSome :
    ∀ (rest : List Anchor) (a b : Anchor) (t : ℚ),
      a.time ≤ t → t ≤ (lastOf a (b :: rest)).time →
      (interpLoop t (a :: b :: rest)).isSome
  | [], a, b, t, h1, h2 => by
    rw [lastOf_cons] at h2
    simp only [lastOf] at h2
    rw [interpLoop_step, if_pos ⟨h1, h2⟩]
    rfl
  | c :: rest2, a, b, t, h1, h2 => by
    by_cases hb : t ≤ b.time
    · rw [interpLoop_step, if_pos ⟨h1, hb⟩]
      rfl
    · have hbt : b.time ≤ t := le_of_lt (not_le.mp hb)
      have h2b : t ≤ (lastOf b (c :: rest2)).time := by
        rw [lastOf_cons] at h2; exact h2
      have ih := interpLoop_isSome rest2 b c t hbt h2b
      rw [interpLoop_step, if_neg (fun hc => hb hc.2)]
      exact ih

/-- The distance loop finds a bracketing pair whenever
`a.dist ≤ d ≤ (last element).dist`. -/
theorem dtLoop_isSome :
    ∀ (rest : List Anchor) (a b : Anchor) (d : ℚ),
      a.dist ≤ d → d ≤ (lastOf a (b :: rest)).dist →
      (dtLoop d (a :: b :: rest)).isSome
  | [], a, b, d, h1, h2 => by
    rw [lastOf_cons] at h2
    simp only [lastOf] at h2
    rw [dtLoop_step, if_pos ⟨h1, h2⟩]
    rfl
  | c :: rest2, a, b, d, h1, h2 => by
    by_cases hb : d ≤ b.dist
    · rw [dtLoop_step, if_pos ⟨h1, hb⟩]
      rfl
    · have hbd : b.dist ≤ d := le_of_lt (not_le.mp hb)
      have h2b : d ≤ (lastOf b (c :: rest2)).dist := by
        rw [lastOf_cons] at h2; exact h2
      have ih := dtLoop_isSome rest2 b c d hbd h2b
      rw [dtLoop_step, if_neg (fun hc => hb hc.2)]
      exact ih

/-- The interpolation loop is the first-match scan over consecutive pairs. -/
theorem interpLoop_eq_find :
    ∀ (l : List Anchor) (t : ℚ),
      interpLoop t l
        = ((l.zip l.tail).find? (fun q => decide (q.1.time ≤ t ∧ t ≤ q.2.time))).map
            (fun q => q.1.dist + (t - q.1.time) / (q.2.time - q.1.time) * (q.2.dist - q.1.dist))
  | [], t => rfl
  | [_], t => rfl
  | a :: b :: rest, t => by
    by_cases h : a.time ≤ t ∧ t ≤ b.time
    · simp [interpLoop, h, List.find?_cons_of_pos]
    · have hfind := interpLoop_eq_find (b :: rest) t
      simp only [interpLoop, if_neg h]
      simpa [h] using hfind

/-- `find?` returns the first element satisfying the predicate. -/
theorem find?_first {α : Type} (p : α → Bool) :
    ∀ (pre : List α) (a : α) (suf : List α),
      (∀ x ∈ pre, p x = false) → p a = true →
      (pre ++ a :: suf).find? p = some a
  | [], a, suf, _, ha => by simp [ha]
  | b :: pre, a, suf, hpre, ha => by
    have hb : ¬ p b := by simp [hpre b (by simp)]
    rw [List.cons_append, List.find?_cons_of_neg _ hb]
    exact find?_first p pre a suf (fun x hx => hpre x (List.mem_cons_of_mem b hx)) ha

/-! ### Claim theorems -/

/-- Claim C3 evaluation: on the empty anchor list `distanceToTime` returns
`0`, but `interpolateDistanceForTime` reads `timePoints[0].time` before its
`length < 2` guard and therefore throws (`none` in this model) instead of
returning `0`. -/
theorem claim_C3_eval (t d : ℚ) :
    interpolateDistanceForTime [] t = none ∧ distanceToTime [] d = 0 :=
  ⟨rfl, rfl⟩

/-- Claim C10: with exactly one anchor, `distanceToTime` returns `0` for
every query distance (never the anchor's time, never an error), while
`interpolateDistanceForTime` returns the single anchor's distance for every
query time. -/
theorem claim_C10 (a : Anchor) (d t : ℚ) :
    distanceToTime [a] d = 0 ∧ interpolateDistanceForTime [a] t = some a.dist := by
  refine ⟨rfl, ?_⟩
  by_cases h : t ≤ a.time
  · simp [interpolateDistanceForTime, h]
  · simp [interpolateDistanceForTime, h, lastOf, le_of_lt (not_le.mp h)]

/-- `updateLabel` is exactly the first-match scan (also for the empty list,
where both sides are `none`). -/
theorem updateLabel_eq_find (lms : List Landmark) (t : ℚ) :
    updateLabel lms t
      = (lms.find? (fun l => decide (|l.time - (t - 0)| < 2))).map
          (fun l => l.description) := by
  cases lms <;> rfl

/-- The anchor list built by `loadData` is the FIX A override applied to a
time-sorted list. -/
theorem loadData_timePoints (g : Q2 → Q2 → ℚ) (data : LoadedData) :
    ∃ stp : List Anchor, List.Sorted timeLE stp ∧
      (loadData g data).timePoints
        = match data.landmarks, stp with
          | lm0 :: _, tp0 :: tpRest =>
            { tp0 with
              dist := (findNearestPointOnRoute (data.coordsLonLat.map (fun c => (c.2, c.1)))
                        (buildCumulativeDistances g (data.coordsLonLat.map (fun c => (c.2, c.1))))
                        (lm0.lat, lm0.lon)).dist,
              time := lm0.time } :: tpRest
          | _, _ => stp :=
  ⟨_, List.sorted_insertionSort timeLE _, rfl⟩

/-- Claim C1: for a nonempty anchor list sorted ascending by time,
`interpolateDistanceForTime` clamps to the first anchor's distance when
`t ≤ first.time`, otherwise clamps to the last anchor's distance when
`t ≥ last.time` (the checks are sequential, as in the source and the spec
sentence), and otherwise returns the linear interpolation over the first
bracketing pair of consecutive anchors; the spec's concrete scenario
evaluates to 50000. -/
theorem claim_C1 (a : Anchor) (rest : List Anchor)
    (hs : List.Sorted timeLE (a :: rest)) (t : ℚ) :
    (t ≤ a.time → interpolateDistanceForTime (a :: rest) t = some a.dist) ∧
    (a.time < t → (lastOf a rest).time ≤ t →
      interpolateDistanceForTime (a :: rest) t = some (lastOf a rest).dist) ∧
    (a.time < t → t < (lastOf a rest).time →
      ∃ pr nx : Anchor,
        ((a :: rest).zip rest).find? (fun q => decide (q.1.time ≤ t ∧ t ≤ q.2.time))
          = some (pr, nx) ∧
        pr.time ≤ t ∧ t ≤ nx.time ∧
        interpolateDistanceForTime (a :: rest) t
          = some (pr.dist + (t - pr.time) / (nx.time - pr.time) * (nx.dist - pr.dist))) ∧
    interpolateDistanceForTime [⟨0, 0, 0, 0⟩, ⟨10, 0, 1, 100000⟩] 5 = some 50000 := by
  refine ⟨?_, ?_, ?_, by norm_num [interpolateDistanceForTime, interpLoop, lastOf]⟩
  · intro h
    simp [interpolateDistanceForTime, h]
  · intro h1 h2
    simp [interpolateDistanceForTime, not_le.mpr h1, h2]
  · intro h1 h2
    cases rest with
    | nil =>
      rw [show lastOf a [] = a from rfl] at h2
      exact absurd (h1.trans h2) (lt_irrefl _)
    | cons b rest2 =>
      have hsome := interpLoop_isSome rest2 a b t (le_of_lt h1) (le_of_lt h2)
      obtain ⟨v, hv⟩ := Option.isSome_iff_exists.mp hsome
      have hfind := interpLoop_eq_find (a :: b :: rest2) t
      simp only [List.tail_cons] at hfind
      rw [hv] at hfind
      cases hf : ((a :: b :: rest2).zip (b :: rest2)).find?
          (fun q => decide (q.1.time ≤ t ∧ t ≤ q.2.time)) with
      | none =>
        rw [hf] at hfind
        simp at hfind
      | some pq =>
        obtain ⟨pr, nx⟩ := pq
        rw [hf] at hfind
        simp only [Option.map_some'] at hfind
        have hpred := List.find?_some hf
        simp only [decide_eq_true_eq] at hpred
        refine ⟨pr, nx, rfl, hpred.1, hpred.2, ?_⟩
        have hout : interpolateDistanceForTime (a :: b :: rest2) t = some v := by
          simp [interpolateDistanceForTime, not_le.mpr h1, not_le.mpr h2, hv]
        rw [hout, hfind]

/-- Witness for claim C1 at the spec's concrete scenario. -/
theorem claim_C1_witness :
    List.Sorted timeLE [(⟨0, 0, 0, 0⟩ : Anchor), ⟨10, 0, 1, 100000⟩] ∧
    interpolateDistanceForTime [(⟨0, 0, 0, 0⟩ : Anchor), ⟨10, 0, 1, 100000⟩] 5
      = some 50000 :=
  ⟨by decide, (claim_C1 ⟨0, 0, 0, 0⟩ [⟨10, 0, 1, 100000⟩] (by decide) 5).2.2.2⟩

/-- Claim C9: `updateLabel` shows the description of the first landmark in
list order within 2 time units of the query time, hides the label when no
landmark is within 2 units, and the spec's single-landmark scenario holds. -/
theorem claim_C9 (lms : List Landmark) (t : ℚ) :
    (∀ (pre : List Landmark) (lm : Landmark) (suf : List Landmark),
        lms = pre ++ lm :: suf → (∀ x ∈ pre, ¬ |x.time - t| < 2) →
        |lm.time - t| < 2 → updateLabel lms t = some lm.description) ∧
    ((∀ x ∈ lms, ¬ |x.time - t| < 2) → updateLabel lms t = none) ∧
    updateLabel [⟨5, 1, 0, "L"⟩] (9 / 2) = some "L" ∧
    updateLabel [⟨5, 1, 0, "L"⟩] 8 = none := by
  refine ⟨?_, ?_,
    by rw [updateLabel_eq_find, List.find?_cons_of_pos _ (by simp [abs_lt]; norm_num)]; rfl,
    by rw [updateLabel_eq_find, List.find?_cons_of_neg _ (by simp [abs_lt]; norm_num)]; rfl⟩
  · intro pre lm suf hsplit hpre hlm
    rw [hsplit, updateLabel_eq_find,
        find?_first _ pre lm suf (fun x hx => by simpa [sub_zero] using hpre x hx)
          (by simpa [sub_zero] using hlm)]
    rfl
  · intro hall
    rw [updateLabel_eq_find,
        List.find?_eq_none.mpr (fun x hx => by simpa [sub_zero] using hall x hx)]
    rfl

/-- Witness for claim C9 at the single-landmark scenario. -/
theorem claim_C9_witness :
    |((5 : ℚ) - 9 / 2)| < 2 ∧ updateLabel [⟨5, 1, 0, "L"⟩] (9 / 2) = some "L" :=
  ⟨by norm_num [abs_of_nonneg], (claim_C9 [⟨5, 1, 0, "L"⟩] (9 / 2)).1 [] ⟨5, 1, 0, "L"⟩ []
    rfl (by simp) (by norm_num [abs_of_nonneg])⟩

/-- Claim C4: once `setupVisualization` has set `initialDist` to the
cumulative distance of `landmarks[0]`'s projection onto the route, a
`syncMarker` frame with `t` strictly below `landmarks[0].time` uses that
landmark-anchored distance — independently of the anchor list, i.e. the
ordinary interpolation is not consulted. -/
theorem claim_C4 (st : SessionState) (lm : Landmark) (lrest : List Landmark)
    (hlm : st.landmarks = lm :: lrest)
    (p : Q2) (prest : List Q2) (hroute : st.routeCoords = p :: prest)
    (t : ℚ) (ht : t < lm.time) :
    syncMarkerDist { st with initialDist := (setupStartPoint st).2 } t
      = some ((findNearestPointOnRoute st.routeCoords st.cumulativeDist
          (lm.lat, lm.lon)).dist) ∧
    ∀ tp : List Anchor,
      syncMarkerDist { st with initialDist := (setupStartPoint st).2, timePoints := tp } t
        = some ((findNearestPointOnRoute st.routeCoords st.cumulativeDist
            (lm.lat, lm.lon)).dist) := by
  constructor
  · simp [syncMarkerDist, setupStartPoint, hlm, hroute, ht]
  · intro tp
    simp [syncMarkerDist, setupStartPoint, hlm, hroute, ht]

/-- Witness for claim C4: concrete state with one landmark at time 5,
queried at time 2; the landmark `(lat 1, lon 0)` projects to cumulative
distance `1/2` on the route `[(0,0), (2,0)]` with table `[0, 1]`. -/
theorem claim_C4_witness :
    ((2 : ℚ) < 5) ∧
    syncMarkerDist { wstate4 with initialDist := (setupStartPoint wstate4).2 } 2
      = some (1 / 2) := by
  refine ⟨by norm_num, ?_⟩
  have h := (claim_C4 wstate4 ⟨5, 1, 0, "lm"⟩ [] rfl (0, 0) [(2, 0)] rfl 2 (by norm_num)).1
  rw [h]
  norm_num [wstate4, findNearestPointOnRoute, findNearestPointAux, pointToSegmentDistance]

/-- Counterexample to claim C2 as stated: the anchors
`[{time 0, dist 0}, {time 0, dist 10}]` are sorted ascending by time (with
a tie) and have strictly increasing distances, and `d = 5` lies strictly
between the first and last distances, yet
`distanceAtTime(timeAtDistance(5)) = 0 ≠ 5`: the interpolated time `0`
falls on the head clamp of `interpolateDistanceForTime`. -/
theorem claim_C2_counterexample :
    List.Sorted timeLE [(⟨0, 0, 0, 0⟩ : Anchor), ⟨0, 0, 1, 10⟩] ∧
    List.Pairwise distLT [(⟨0, 0, 0, 0⟩ : Anchor), ⟨0, 0, 1, 10⟩] ∧
    (0 : ℚ) < 5 ∧ (5 : ℚ) < 10 ∧
    distanceToTime [(⟨0, 0, 0, 0⟩ : Anchor), ⟨0, 0, 1, 10⟩] 5 = 0 ∧
    interpolateDistanceForTime [(⟨0, 0, 0, 0⟩ : Anchor), ⟨0, 0, 1, 10⟩]
      (distanceToTime [(⟨0, 0, 0, 0⟩ : Anchor), ⟨0, 0, 1, 10⟩] 5) = some 0 ∧
    (0 : ℚ) ≠ 5 := by
  refine ⟨by decide, by decide, by norm_num, by norm_num, ?_, ?_, by norm_num⟩
  · norm_num [distanceToTime, dtLoop, lastOf]
  · rw [show distanceToTime [(⟨0, 0, 0, 0⟩ : Anchor), ⟨0, 0, 1, 10⟩] 5 = 0 from by
        norm_num [distanceToTime, dtLoop, lastOf]]
    norm_num [interpolateDistanceForTime, interpLoop, lastOf]

/-- Counterexample to claim C5 as stated: with `ce5data` (anchor times 0
and 5, first landmark time 10) the anchor list after `loadData` has times
`[10, 5]` — the FIX A override happens after the sort and destroys the
sortedness invariant. -/
theorem claim_C5_counterexample :
    ce5data.landmarks ≠ [] ∧ ce5data.linkedPoints ≠ [] ∧
    ¬ List.Sorted timeLE (loadData gOne ce5data).timePoints :=
  ⟨by decide, by decide, by decide⟩

/-- Claim C5 amended: after `loadData`, when landmarks and anchors are both
non-empty, the anchor list from index 1 onward is sorted ascending by time
and the first anchor's time equals `landmarks[0].time`; the full list need
not be sorted because the override is applied after the sort. -/
theorem claim_C5_amended (g : Q2 → Q2 → ℚ) (data : LoadedData)
    (lm : Landmark) (lrest : List Landmark) (hl : data.landmarks = lm :: lrest)
    (tp : Anchor) (trest : List Anchor)
    (htp : (loadData g data).timePoints = tp :: trest) :
    tp.time = lm.time ∧ List.Sorted timeLE trest := by
  obtain ⟨stp, hsorted, heq⟩ := loadData_timePoints g data
  rw [heq, hl] at htp
  cases stp with
  | nil => simp at htp
  | cons tp0 tpRest =>
    injection htp with h1 h2
    constructor
    · rw [← h1]
    · rw [← h2]
      exact (List.sorted_cons.mp hsorted).2

/-- Witness for the amended claim C5 at the counterexample input. -/
theorem claim_C5_witness :
    ((⟨10, 0, 0, 0⟩ : Anchor).time = (⟨10, 0, 0, "start"⟩ : Landmark).time) ∧
    List.Sorted timeLE [(⟨5, 1, 0, 1⟩ : Anchor)] :=
  claim_C5_amended gOne ce5data ⟨10, 0, 0, "start"⟩ [] rfl ⟨10, 0, 0, 0⟩ [⟨5, 1, 0, 1⟩]
    (by norm_num [loadData, buildCumulativeDistances, buildAux, gOne, ce5data,
      findNearestDistanceOnRoute, findNearestAux, findNearestPointOnRoute,
      findNearestPointAux, pointToSegmentDistance, List.insertionSort, List.orderedInsert,
      timeLE])

/-- Counterexample to claim C6 as stated: with `ce6data` (startPosition
`(5,5)` and one landmark at `(1,0)`), the displayed initial marker
position chosen by `setupVisualization` is the landmark's raw position
`(1,0)` — not the raw `startPosition` `(5,5)` and not its projection
`(2,0)` onto the route. -/
theorem claim_C6_counterexample :
    ce6data.startPosition = some (5, 5) ∧
    ce6data.landmarks ≠ [] ∧
    (setupStartPoint (loadData gOne ce6data)).1 = some (1, 0) ∧
    (findNearestPointOnRoute (loadData gOne ce6data).routeCoords
        (loadData gOne ce6data).cumulativeDist (5, 5)).point = some (2, 0) ∧
    (some ((1 : ℚ), (0 : ℚ)) ≠ some ((5 : ℚ), (5 : ℚ))) ∧
    (some ((1 : ℚ), (0 : ℚ)) ≠ some ((2 : ℚ), (0 : ℚ))) := by
  refine ⟨by decide, by decide, by decide, ?_, by decide, by decide⟩
  norm_num [loadData, buildCumulativeDistances, buildAux, gOne, ce6data,
    findNearestPointOnRoute, findNearestPointAux, pointToSegmentDistance]

/-- Claim C6 amended: `loadData` does give `startPosition` precedence for
the internal `initialPos`/`initialDist` values, but `setupVisualization`
ignores them for the displayed marker: its start point is `landmarks[0]`'s
raw position when landmarks exist and `routeCoords[0]` otherwise,
regardless of `startPosition`. -/
theorem claim_C6_amended (g : Q2 → Q2 → ℚ) (data : LoadedData) (sp : Q2)
    (h : data.startPosition = some sp) :
    (loadData g data).initialPos = some sp ∧
    (loadData g data).initialDist
      = findNearestDistanceOnRoute (loadData g data).routeCoords
          (loadData g data).cumulativeDist sp ∧
    (setupStartPoint (loadData g data)).1
      = match data.landmarks with
        | lm :: _ => some (lm.lat, lm.lon)
        | [] => (loadData g data).routeCoords.head? := by
  refine ⟨?_, ?_, ?_⟩
  · simp [loadData, h]
  · simp [loadData, h]
  · cases hL : data.landmarks with
    | nil => simp [setupStartPoint, loadData, hL]
    | cons lm lrest => simp [setupStartPoint, loadData, hL]

/-- Witness for the amended claim C6 at the counterexample input. -/
theorem claim_C6_witness :
    ce6data.startPosition = some ((5 : ℚ), (5 : ℚ)) ∧
    (loadData gOne ce6data).initialPos = some (5, 5) ∧
    (setupStartPoint (loadData gOne ce6data)).1 = some (1, 0) := by
  refine ⟨by decide, (claim_C6_amended gOne ce6data (5, 5) (by decide)).1, ?_⟩
  have h3 := (claim_C6_amended gOne ce6data (5, 5) (by decide)).2.2
  rw [h3]
  decide

/-- When the clamps do not fire and the loop finds a bracket,
`interpolateDistanceForTime` returns the loop's value. -/
theorem interp_eq_of_loop (a b : Anchor) (rest : List Anchor) (t v : ℚ)
    (h1 : a.time < t) (h2 : t < (lastOf a (b :: rest)).time)
    (hv : interpLoop t (a :: b :: rest) = some v) :
    interpolateDistanceForTime (a :: b :: rest) t = some v := by
  simp only [interpolateDistanceForTime, if_neg (not_le.mpr h1), if_neg (not_le.mpr h2), hv]

/-- When the loop finds a bracket, `distanceToTime` returns its value. -/
theorem distanceToTime_eq_of_loop (a b : Anchor) (rest : List Anchor) (d v : ℚ)
    (hv : dtLoop d (a :: b :: rest) = some v) :
    distanceToTime (a :: b :: rest) d = v := by
  simp only [distanceToTime, hv]

/-- Round-trip induction: for strictly time-sorted anchors with strictly
increasing distances and `d` strictly between the first and last distances,
`distanceToTime` lands strictly between the first and last times and
`interpolateDistanceForTime` recovers `d` exactly. -/
theorem roundTrip :
    ∀ (rest : List Anchor) (a b : Anchor),
      List.Pairwise timeLT (a :: b :: rest) →
      List.Pairwise distLT (a :: b :: rest) →
      ∀ d : ℚ, a.dist < d → d < (lastOf b rest).dist →
      a.time < distanceToTime (a :: b :: rest) d ∧
      distanceToTime (a :: b :: rest) d < (lastOf b rest).time ∧
      interpolateDistanceForTime (a :: b :: rest) (distanceToTime (a :: b :: rest) d)
        = some d
  | [], a, b, hst, hsd, d, hd1, hd2 => by
    have hab_t : a.time < b.time := (List.pairwise_cons.mp hst).1 b (by simp)
    have hab_d : a.dist < b.dist := (List.pairwise_cons.mp hsd).1 b (by simp)
    have hd2b : d < b.dist := by simpa [lastOf] using hd2
    have hΔt : b.time - a.time ≠ 0 := ne_of_gt (sub_pos.mpr hab_t)
    have hΔd : b.dist - a.dist ≠ 0 := ne_of_gt (sub_pos.mpr hab_d)
    have hloop : dtLoop d [a, b]
        = some (a.time + (d - a.dist) / (b.dist - a.dist) * (b.time - a.time)) := by
      rw [dtLoop_step, if_pos ⟨le_of_lt hd1, le_of_lt hd2b⟩]
    have hdt := distanceToTime_eq_of_loop a b [] d _ hloop
    have hfrac0 : 0 < (d - a.dist) / (b.dist - a.dist) :=
      div_pos (sub_pos.mpr hd1) (sub_pos.mpr hab_d)
    have hfrac1 : (d - a.dist) / (b.dist - a.dist) < 1 :=
      (div_lt_one (sub_pos.mpr hab_d)).mpr (by linarith)
    have hmul0 := mul_pos hfrac0 (sub_pos.mpr hab_t)
    have hmul1 := mul_lt_mul_of_pos_right hfrac1 (sub_pos.mpr hab_t)
    rw [hdt]
    have h_lo : a.time < a.time + (d - a.dist) / (b.dist - a.dist) * (b.time - a.time) := by
      linarith
    have h_hi : a.time + (d - a.dist) / (b.dist - a.dist) * (b.time - a.time) < b.time := by
      linarith
    refine ⟨h_lo, by simpa [lastOf] using h_hi, ?_⟩
    have hl : interpLoop (a.time + (d - a.dist) / (b.dist - a.dist) * (b.time - a.time)) [a, b]
        = some (a.dist
            + (a.time + (d - a.dist) / (b.dist - a.dist) * (b.time - a.time) - a.time)
                / (b.time - a.time) * (b.dist - a.dist)) := by
      rw [interpLoop_step, if_pos ⟨le_of_lt h_lo, le_of_lt h_hi⟩]
    have hval : a.dist
        + (a.time + (d - a.dist) / (b.dist - a.dist) * (b.time - a.time) - a.time)
            / (b.time - a.time) * (b.dist - a.dist) = d := by
      field_simp
      ring
    rw [interp_eq_of_loop a b [] _ _ h_lo (by simpa [lastOf] using h_hi) hl]
    exact congrArg some hval
  | c :: r2, a, b, hst, hsd, d, hd1, hd2 => by
    have hab_t : a.time < b.time := (List.pairwise_cons.mp hst).1 b (by simp)
    have hab_d : a.dist < b.dist := (List.pairwise_cons.mp hsd).1 b (by simp)
    by_cases hcase : d ≤ b.dist
    · -- bracket found at the first pair (a, b)
      have hΔt : b.time - a.time ≠ 0 := ne_of_gt (sub_pos.mpr hab_t)
      have hΔd : b.dist - a.dist ≠ 0 := ne_of_gt (sub_pos.mpr hab_d)
      have hloop : dtLoop d (a :: b :: c :: r2)
          = some (a.time + (d - a.dist) / (b.dist - a.dist) * (b.time - a.time)) := by
        rw [dtLoop_step, if_pos ⟨le_of_lt hd1, hcase⟩]
      have hdt := distanceToTime_eq_of_loop a b (c :: r2) d _ hloop
      have hfrac0 : 0 < (d - a.dist) / (b.dist - a.dist) :=
        div_pos (sub_pos.mpr hd1) (sub_pos.mpr hab_d)
      have hfrac1 : (d - a.dist) / (b.dist - a.dist) ≤ 1 :=
        (div_le_one (sub_pos.mpr hab_d)).mpr (by linarith)
      have hmul0 := mul_pos hfrac0 (sub_pos.mpr hab_t)
      have hmul1 := mul_le_of_le_one_left (le_of_lt (sub_pos.mpr hab_t)) hfrac1
      rw [hdt]
      have h_lo : a.time < a.time + (d - a.dist) / (b.dist - a.dist) * (b.time - a.time) := by
        linarith
      have h_mid : a.time + (d - a.dist) / (b.dist - a.dist) * (b.time - a.time) ≤ b.time := by
        linarith
      have hblast : b.time < (lastOf c r2).time := head_time_lt_lastOf b c r2 hst.of_cons
      have h_hi : a.time + (d - a.dist) / (b.dist - a.dist) * (b.time - a.time)
          < (lastOf c r2).time := lt_of_le_of_lt h_mid hblast
      refine ⟨h_lo, h_hi, ?_⟩
      have hl : interpLoop (a.time + (d - a.dist) / (b.dist - a.dist) * (b.time - a.time))
          (a :: b :: c :: r2)
          = some (a.dist
              + (a.time + (d - a.dist) / (b.dist - a.dist) * (b.time - a.time) - a.time)
                  / (b.time - a.time) * (b.dist - a.dist)) := by
        rw [interpLoop_step, if_pos ⟨le_of_lt h_lo, h_mid⟩]
      have hval : a.dist
          + (a.time + (d - a.dist) / (b.dist - a.dist) * (b.time - a.time) - a.time)
              / (b.time - a.time) * (b.dist - a.dist) = d := by
        field_simp
        ring
      rw [interp_eq_of_loop a b (c :: r2) _ _ h_lo h_hi hl]
      exact congrArg some hval
    · -- skip the first pair and recurse on (b, c, r2)
      have hbd : b.dist < d := not_le.mp hcase
      obtain ⟨ih1, ih2, ih3⟩ :=
        roundTrip r2 b c hst.of_cons hsd.of_cons d hbd hd2
      have hdts := dtLoop_isSome r2 b c d (le_of_lt hbd) (le_of_lt hd2)
      obtain ⟨v, hv⟩ := Option.isSome_iff_exists.mp hdts
      have ht2v := distanceToTime_eq_of_loop b c r2 d v hv
      have hdtfull : distanceToTime (a :: b :: c :: r2) d = v := by
        have hstep : dtLoop d (a :: b :: c :: r2) = dtLoop d (b :: c :: r2) := by
          rw [dtLoop_step, if_neg (fun hc => hcase hc.2)]
        exact distanceToTime_eq_of_loop a b (c :: r2) d v (hstep.trans hv)
      rw [ht2v] at ih1 ih2 ih3
      refine ⟨hdtfull ▸ lt_trans hab_t ih1, hdtfull ▸ ih2, ?_⟩
      have hisw := interpLoop_isSome r2 b c v (le_of_lt ih1) (le_of_lt ih2)
      obtain ⟨w, hw⟩ := Option.isSome_iff_exists.mp hisw
      have hA : interpolateDistanceForTime (b :: c :: r2) v = some w :=
        interp_eq_of_loop b c r2 v w ih1 ih2 hw
      rw [hA] at ih3
      have hw2 : interpLoop v (a :: b :: c :: r2) = some w := by
        rw [interpLoop_step, if_neg (fun hc => absurd hc.2 (not_le.mpr ih1)), hw]
      rw [hdtfull, interp_eq_of_loop a b (c :: r2) v w (lt_trans hab_t ih1) ih2 hw2]
      exact ih3

/-- Claim C2 amended: for at least two anchors sorted *strictly* ascending
by time with strictly increasing distances, and any `d` strictly between
the first and last anchors' distances,
`interpolateDistanceForTime (distanceToTime d) = d` holds exactly over the
rationals.  (The claim as stated fails when two anchors share a timestamp,
see the counterexample.) -/
theorem claim_C2_amended (a b : Anchor) (rest : List Anchor)
    (hst : List.Pairwise timeLT (a :: b :: rest))
    (hsd : List.Pairwise distLT (a :: b :: rest))
    (d : ℚ) (hd1 : a.dist < d) (hd2 : d < (lastOf b rest).dist) :
    interpolateDistanceForTime (a :: b :: rest)
      (distanceToTime (a :: b :: rest) d) = some d :=
  (roundTrip rest a b hst hsd d hd1 hd2).2.2

/-- Witness for the amended claim C2. -/
theorem claim_C2_witness :
    List.Pairwise timeLT [(⟨0, 0, 0, 0⟩ : Anchor), ⟨10, 0, 1, 100⟩] ∧
    List.Pairwise distLT [(⟨0, 0, 0, 0⟩ : Anchor), ⟨10, 0, 1, 100⟩] ∧
    (0 : ℚ) < 30 ∧ (30 : ℚ) < 100 ∧
    interpolateDistanceForTime [(⟨0, 0, 0, 0⟩ : Anchor), ⟨10, 0, 1, 100⟩]
      (distanceToTime [(⟨0, 0, 0, 0⟩ : Anchor), ⟨10, 0, 1, 100⟩] 30) = some 30 := by
  refine ⟨by decide, by decide, by norm_num, by norm_num, ?_⟩
  exact claim_C2_amended ⟨0, 0, 0, 0⟩ ⟨10, 0, 1, 100⟩ [] (by decide) (by decide) 30
    (by norm_num) (by norm_num [lastOf])

theorem lastQ_cons_cons (x y : ℚ) (l : List ℚ) :
    lastQ (x :: y :: l) = lastQ (y :: l) := rfl

theorem buildAux_eq_cons (g : Q2 → Q2 → ℚ) (p : Q2) (rest : List Q2) (acc : ℚ) :
    ∃ tl, buildAux g p rest acc = acc :: tl := by
  cases rest with
  | nil => exact ⟨[], rfl⟩
  | cons q r => exact ⟨buildAux g q r (acc + g p q), rfl⟩

/-- With a nonnegative distance function, the running total never exceeds
the final entry of the cumulative table it opens. -/
theorem le_lastQ_buildAux (g : Q2 → Q2 → ℚ) (hg : ∀ x y, 0 ≤ g x y) :
    ∀ (rest : List Q2) (p : Q2) (acc : ℚ), acc ≤ lastQ (buildAux g p rest acc)
  | [], _, acc => le_of_eq rfl
  | q :: r, p, acc => by
    obtain ⟨tl, htl⟩ := buildAux_eq_cons g q r (acc + g p q)
    have hshape : buildAux g p (q :: r) acc = acc :: (acc + g p q) :: tl := by
      rw [show buildAux g p (q :: r) acc = acc :: buildAux g q r (acc + g p q) from rfl, htl]
    rw [hshape, lastQ_cons_cons, ← htl]
    calc acc ≤ acc + g p q := le_add_of_nonneg_right (hg p q)
      _ ≤ lastQ (buildAux g q r (acc + g p q)) := le_lastQ_buildAux g hg r q (acc + g p q)

/-- `getPositionAtDistance 0` returns the first route point when the first
segment has nonzero length: the walk stops at the first segment and the
fraction is `0`. -/
theorem posLoop_at_zero (g : Q2 → Q2 → ℚ) (hg : ∀ x y, 0 ≤ g x y)
    (hz : ∀ x y, g x y = 0 → x = y) (p q : Q2) (rest : List Q2) (hpq : p ≠ q) :
    posLoop 0 (p :: q :: rest) (buildCumulativeDistances g (p :: q :: rest))
      = PosResult.pos p := by
  obtain ⟨tl, htl⟩ := buildAux_eq_cons g q rest (0 + g p q)
  rw [show buildCumulativeDistances g (p :: q :: rest)
      = 0 :: buildAux g q rest (0 + g p q) from rfl, htl]
  have hgz : g p q ≠ 0 := fun h => hpq (hz p q h)
  rw [posLoop, if_neg (not_lt.mpr (by linarith [hg p q]))]
  simp [hgz]

/-- `getPositionAtDistance` at the total route length returns the last
route point, provided no two consecutive route points coincide (so no
segment of the table is flat at the point where the walk stops). -/
theorem posLoop_at_total (g : Q2 → Q2 → ℚ) (hg : ∀ x y, 0 ≤ g x y)
    (hz : ∀ x y, g x y = 0 → x = y) :
    ∀ (rest : List Q2) (p : Q2) (acc : ℚ),
      List.Chain' (fun x y => x ≠ y) (p :: rest) →
      posLoop (lastQ (buildAux g p rest acc)) (p :: rest) (buildAux g p rest acc)
        = posOf (p :: rest).getLast?
  | [], _, _, _ => rfl
  | q :: r, p, acc, hchain => by
    obtain ⟨tl, htl⟩ := buildAux_eq_cons g q r (acc + g p q)
    have hshape : buildAux g p (q :: r) acc = acc :: (acc + g p q) :: tl := by
      rw [show buildAux g p (q :: r) acc = acc :: buildAux g q r (acc + g p q) from rfl, htl]
    have hpq : p ≠ q := (List.chain'_cons.mp hchain).1
    have hchain2 : List.Chain' (fun x y => x ≠ y) (q :: r) := (List.chain'_cons.mp hchain).2
    have hgz : g p q ≠ 0 := fun h => hpq (hz p q h)
    rw [hshape, lastQ_cons_cons]
    have hle : (acc + g p q) ≤ lastQ ((acc + g p q) :: tl) := by
      rw [← htl]
      exact le_lastQ_buildAux g hg r q (acc + g p q)
    by_cases hlt : (acc + g p q) < lastQ ((acc + g p q) :: tl)
    · rw [posLoop, if_pos hlt, ← htl,
        posLoop_at_total g hg hz r q (acc + g p q) hchain2, List.getLast?_cons_cons]
    · have heq : lastQ ((acc + g p q) :: tl) = acc + g p q :=
        le_antisymm (not_lt.mp hlt) hle
      cases r with
      | nil =>
        rw [posLoop, if_neg hlt]
        simp [heq, hgz, div_self hgz, posOf]
      | cons c r2 =>
        exfalso
        have hqc : q ≠ c := (List.chain'_cons.mp hchain2).1
        have hgqc : g q c ≠ 0 := fun h => hqc (hz q c h)
        have hgqcpos : 0 < g q c := lt_of_le_of_ne (hg q c) (Ne.symm hgqc)
        obtain ⟨tl2, htl2⟩ := buildAux_eq_cons g c r2 (acc + g p q + g q c)
        have hgrow : acc + g p q + g q c
            ≤ lastQ (buildAux g q (c :: r2) (acc + g p q)) := by
          rw [show buildAux g q (c :: r2) (acc + g p q)
              = (acc + g p q) :: buildAux g c r2 (acc + g p q + g q c) from rfl, htl2,
            lastQ_cons_cons, ← htl2]
          exact le_lastQ_buildAux g hg r2 c (acc + g p q + g q c)
        rw [htl, heq] at hgrow
        linarith

/-- `getPositionAtDistance` beyond the total route length returns the last
route point unconditionally: the walk falls off the end of the table
without ever dividing. -/
theorem posLoop_beyond (g : Q2 → Q2 → ℚ) (hg : ∀ x y, 0 ≤ g x y) :
    ∀ (rest : List Q2) (p : Q2) (acc d : ℚ),
      lastQ (buildAux g p rest acc) < d →
      posLoop d (p :: rest) (buildAux g p rest acc) = posOf (p :: rest).getLast?
  | [], _, _, _, _ => rfl
  | q :: r, p, acc, d, hd => by
    obtain ⟨tl, htl⟩ := buildAux_eq_cons g q r (acc + g p q)
    have hshape : buildAux g p (q :: r) acc = acc :: (acc + g p q) :: tl := by
      rw [show buildAux g p (q :: r) acc = acc :: buildAux g q r (acc + g p q) from rfl, htl]
    rw [hshape, lastQ_cons_cons] at hd
    have hlt : (acc + g p q) < d := lt_of_le_of_lt
      (by rw [← htl]; exact le_lastQ_buildAux g hg r q (acc + g p q)) hd
    rw [hshape, posLoop, if_pos hlt, ← htl,
      posLoop_beyond g hg r q (acc + g p q) d (by rw [htl]; exact hd),
      List.getLast?_cons_cons]

/-- The squared planar distance is nonnegative. -/
theorem gSq_nonneg (x y : Q2) : 0 ≤ gSq x y := add_nonneg (sq_nonneg _) (sq_nonneg _)

/-- The squared planar distance vanishes only on identical points. -/
theorem gSq_eq_zero (x y : Q2) (h : gSq x y = 0) : x = y := by
  simp only [gSq] at h
  have h1 : (x.1 - y.1) ^ 2 = 0 :=
    le_antisymm (by linarith [sq_nonneg (x.2 - y.2)]) (sq_nonneg _)
  have h2 : (x.2 - y.2) ^ 2 = 0 :=
    le_antisymm (by linarith [sq_nonneg (x.1 - y.1)]) (sq_nonneg _)
  exact Prod.ext_iff.mpr
    ⟨sub_eq_zero.mp ((pow_eq_zero_iff (by norm_num)).mp h1),
     sub_eq_zero.mp ((pow_eq_zero_iff (by norm_num)).mp h2)⟩

/-- Counterexample to claim C7 as stated: the route
`[(0,0), (0,0), (1,0)]` has at least two points and a genuine distance
function (`gSq`, nonnegative and zero only on equal points, as
`map.distance` is), yet `getPositionAtDistance 0` hits a zero-length first
segment, where the source computes `segFrac = 0/0 = NaN` and returns a
non-finite pair instead of `route[0]`; the all-duplicate route
`[(0,0), (0,0)]` does the same at its total route length `0` instead of
returning the last route point. -/
theorem claim_C7_counterexample :
    (∀ x y : Q2, 0 ≤ gSq x y) ∧
    (∀ x y : Q2, gSq x y = 0 → x = y) ∧
    (2 ≤ ([((0 : ℚ), (0 : ℚ)), (0, 0), (1, 0)] : List Q2).length) ∧
    ([((0 : ℚ), (0 : ℚ)), (0, 0), (1, 0)] : List Q2).head? = some (0, 0) ∧
    getPositionAtDistance [((0 : ℚ), (0 : ℚ)), (0, 0), (1, 0)]
      (buildCumulativeDistances gSq [((0 : ℚ), (0 : ℚ)), (0, 0), (1, 0)]) 0
      = PosResult.nonFinite ∧
    ([((0 : ℚ), (0 : ℚ)), (0, 0)] : List Q2).getLast? = some (0, 0) ∧
    getPositionAtDistance [((0 : ℚ), (0 : ℚ)), (0, 0)]
      (buildCumulativeDistances gSq [((0 : ℚ), (0 : ℚ)), (0, 0)])
      (lastQ (buildCumulativeDistances gSq [((0 : ℚ), (0 : ℚ)), (0, 0)]))
      = PosResult.nonFinite ∧
    PosResult.nonFinite ≠ posOf (some ((0 : ℚ), (0 : ℚ))) := by
  refine ⟨gSq_nonneg, gSq_eq_zero, by norm_num, by norm_num, ?_, by norm_num, ?_, by simp [posOf]⟩
  · norm_num [getPositionAtDistance, posLoop, buildCumulativeDistances, buildAux, gSq]
  · norm_num [getPositionAtDistance, posLoop, buildCumulativeDistances, buildAux, gSq, lastQ]

/-- Claim C7 amended: for a route with at least two points and its derived
cumulative table, `getPositionAtDistance` returns the first route point at
distance `0` and the last route point at the total route length *provided
no two consecutive route points coincide* (otherwise the source divides by
a zero segment length and produces a non-finite pair); for every distance
strictly beyond the total route length it returns the last route point
unconditionally, since that path never divides. -/
theorem claim_C7_amended (g : Q2 → Q2 → ℚ) (route : List Q2) (hlen : 2 ≤ route.length)
    (hg : ∀ x y, 0 ≤ g x y) (hz : ∀ x y, g x y = 0 → x = y) :
    (route.Chain' (fun x y => x ≠ y) →
      getPositionAtDistance route (buildCumulativeDistances g route) 0
        = posOf route.head? ∧
      getPositionAtDistance route (buildCumulativeDistances g route)
        (lastQ (buildCumulativeDistances g route)) = posOf route.getLast?) ∧
    ∀ d : ℚ, lastQ (buildCumulativeDistances g route) < d →
      getPositionAtDistance route (buildCumulativeDistances g route) d
        = posOf route.getLast? := by
  cases route with
  | nil => simp at hlen
  | cons p r =>
    cases r with
    | nil => simp at hlen
    | cons q rest =>
      constructor
      · intro hchain
        have hpq : p ≠ q := (List.chain'_cons.mp hchain).1
        exact ⟨posLoop_at_zero g hg hz p q rest hpq,
          posLoop_at_total g hg hz (q :: rest) p 0 hchain⟩
      · intro d hd
        exact posLoop_beyond g hg (q :: rest) p 0 d hd

/-- Witness for the amended claim C7 on the duplicate-free route
`[(0,0), (1,0)]` with the squared planar distance. -/
theorem claim_C7_witness :
    getPositionAtDistance [((0 : ℚ), (0 : ℚ)), (1, 0)]
      (buildCumulativeDistances gSq [((0 : ℚ), (0 : ℚ)), (1, 0)]) 0
      = PosResult.pos (0, 0) ∧
    getPositionAtDistance [((0 : ℚ), (0 : ℚ)), (1, 0)]
      (buildCumulativeDistances gSq [((0 : ℚ), (0 : ℚ)), (1, 0)])
      (lastQ (buildCumulativeDistances gSq [((0 : ℚ), (0 : ℚ)), (1, 0)]))
      = PosResult.pos (1, 0) ∧
    getPositionAtDistance [((0 : ℚ), (0 : ℚ)), (1, 0)]
      (buildCumulativeDistances gSq [((0 : ℚ), (0 : ℚ)), (1, 0)]) 2
      = PosResult.pos (1, 0) := by
  have h := claim_C7_amended gSq [((0 : ℚ), (0 : ℚ)), (1, 0)] (by norm_num)
    gSq_nonneg gSq_eq_zero
  have h12 := h.1 (List.chain'_cons.mpr
    ⟨fun hEq => by have h1 := congrArg Prod.fst hEq; norm_num at h1,
     List.chain'_singleton _⟩)
  exact ⟨h12.1, h12.2,
    h.2 2 (by norm_num [buildCumulativeDistances, buildAux, gSq, lastQ])⟩

/-- The projection fraction computed by `pointToSegmentDistance` is always
clamped into `[0, 1]`. -/
theorem frac_bounds (p a b : Q2) :
    0 ≤ (pointToSegmentDistance p a b).frac ∧ (pointToSegmentDistance p a b).frac ≤ 1 := by
  simp only [pointToSegmentDistance]
  exact ⟨le_max_left 0 _, max_le (by norm_num) (min_le_left 1 _)⟩

/-- Invariant of the projection scan: the running best cumulative distance
stays inside `[0, D]` where `D` bounds the final table entry. -/
theorem findNearestAux_bounds (g : Q2 → Q2 → ℚ) (hg : ∀ x y, 0 ≤ g x y)
    (pt : Q2) (D : ℚ) :
    ∀ (rest : List Q2) (p : Q2) (acc : ℚ) (near : Option ℚ) (best : ℚ),
      0 ≤ acc → 0 ≤ best → best ≤ D → lastQ (buildAux g p rest acc) ≤ D →
      0 ≤ findNearestAux pt (p :: rest) (buildAux g p rest acc) near best ∧
      findNearestAux pt (p :: rest) (buildAux g p rest acc) near best ≤ D
  | [], _, _, _, _, _, hb0, hbD, _ => ⟨hb0, hbD⟩
  | q :: r, p, acc, near, best, hacc, hb0, hbD, hlast => by
    obtain ⟨tl, htl⟩ := buildAux_eq_cons g q r (acc + g p q)
    have hshape : buildAux g p (q :: r) acc = acc :: (acc + g p q) :: tl := by
      rw [show buildAux g p (q :: r) acc = acc :: buildAux g q r (acc + g p q) from rfl, htl]
    rw [hshape, lastQ_cons_cons] at hlast
    have hlastB : lastQ (buildAux g q r (acc + g p q)) ≤ D := by
      rw [htl]; exact hlast
    have hfr := frac_bounds pt p q
    have hacc2 : 0 ≤ acc + g p q := by linarith [hg p q]
    have hcand0 : 0 ≤ acc + (pointToSegmentDistance pt p q).frac * (acc + g p q - acc) := by
      have := mul_nonneg hfr.1 (by linarith [hg p q] : (0 : ℚ) ≤ acc + g p q - acc)
      linarith
    have hcandD : acc + (pointToSegmentDistance pt p q).frac * (acc + g p q - acc) ≤ D := by
      have hle : (pointToSegmentDistance pt p q).frac * (acc + g p q - acc)
          ≤ acc + g p q - acc :=
        mul_le_of_le_one_left (by linarith [hg p q]) hfr.2
      have hacc2D : acc + g p q ≤ D :=
        le_trans (le_lastQ_buildAux g hg r q (acc + g p q)) hlastB
      linarith
    rw [hshape]
    cases near with
    | none =>
      simp only [findNearestAux]
      rw [← htl]
      exact findNearestAux_bounds g hg pt D r q (acc + g p q) _ _ hacc2 hcand0 hcandD hlastB
    | some n =>
      simp only [findNearestAux]
      by_cases hn : (pointToSegmentDistance pt p q).dist2 < n
      · rw [if_pos hn, ← htl]
        exact findNearestAux_bounds g hg pt D r q (acc + g p q) _ _ hacc2 hcand0 hcandD hlastB
      · rw [if_neg hn, ← htl]
        exact findNearestAux_bounds g hg pt D r q (acc + g p q) _ _ hacc2 hb0 hbD hlastB

/-- Claim C8: for every query point and every route with its derived
cumulative table, the projected cumulative distance returned by
`findNearestDistanceOnRoute` lies in `[0, totalRouteLength]`. -/
theorem claim_C8 (g : Q2 → Q2 → ℚ) (route : List Q2) (p : Q2)
    (hg : ∀ x y, 0 ≤ g x y) :
    0 ≤ findNearestDistanceOnRoute route (buildCumulativeDistances g route) p ∧
    findNearestDistanceOnRoute route (buildCumulativeDistances g route) p
      ≤ lastQ (buildCumulativeDistances g route) := by
  cases route with
  | nil => exact ⟨le_refl 0, le_refl 0⟩
  | cons p0 r =>
    cases r with
    | nil => exact ⟨le_refl 0, le_refl 0⟩
    | cons q0 r2 =>
      have h0D : (0 : ℚ) ≤ lastQ (buildAux g p0 (q0 :: r2) 0) :=
        le_lastQ_buildAux g hg (q0 :: r2) p0 0
      exact findNearestAux_bounds g hg p (lastQ (buildAux g p0 (q0 :: r2) 0))
        (q0 :: r2) p0 0 none 0 (le_refl 0) (le_refl 0) h0D (le_refl _)

/-- Witness for claim C8 on the route `[(0,0), (2,0)]` with query point
`(5,5)` and the constant distance function `gOne`. -/
theorem claim_C8_witness :
    0 ≤ findNearestDistanceOnRoute [((0 : ℚ), (0 : ℚ)), (2, 0)]
      (buildCumulativeDistances gOne [((0 : ℚ), (0 : ℚ)), (2, 0)]) (5, 5) ∧
    findNearestDistanceOnRoute [((0 : ℚ), (0 : ℚ)), (2, 0)]
      (buildCumulativeDistances gOne [((0 : ℚ), (0 : ℚ)), (2, 0)]) (5, 5)
      ≤ lastQ (buildCumulativeDistances gOne [((0 : ℚ), (0 : ℚ)), (2, 0)]) :=
  claim_C8 gOne [((0 : ℚ), (0 : ℚ)), (2, 0)] (5, 5) (fun x y => by norm_num [gOne])
